import Mathlib

/-
A shallow embedding of the d3-funnel chart widget (src/d3-funnel/d3-funnel.js):
the configuration resolver, the path geometry engine, the draw/destroy
container lifecycle and the color shading helper, together with theorems
about the properties the widget is expected to satisfy.

JavaScript numbers are modelled as rationals.  Math.sqrt has no exact
rational counterpart, so the geometry engine takes the square root function
as an explicit parameter sq; every theorem about it either holds for an
arbitrary sq or states its hypotheses on sq explicitly.
-/

set_option linter.unusedVariables false

namespace D3Funnel

/-- One cell of a data row: a label string, a bare numeric value, or a pair
of a numeric value and a preformatted display string (the source accepts
both shapes for the value field). -/
inductive Cell where
  | str (s : String)
  | num (v : ℚ)
  | pair (v : ℚ) (fmt : String)
  deriving DecidableEq, Repr

/-- A data row is a heterogeneous JavaScript array, modelled as a list of cells. -/
abbrev Row := List Cell

/-- Mirrors the value extraction at lines 249 and 255 of the source:
count = isArray(data[i][1]) ? data[i][1][0] : data[i][1]. -/
def rowValue (r : Row) : ℚ :=
  match r.drop 1 with
  | Cell.pair v _ :: _ => v
  | Cell.num v :: _ => v
  | _ => 0

/-- Settings relevant to the geometry after merging defaults with user
options; bottomWidth is still the fractional ratio at this point. -/
structure Settings where
  width : ℚ
  height : ℚ
  bottomWidth : ℚ
  bottomPinch : ℕ
  isCurved : Bool
  curveHeight : ℚ
  isInverted : Bool
  dynamicArea : Bool
  minHeight : Option ℚ
  deriving DecidableEq, Repr

/-- Chart instance state as written by the initializer at lines 162 to 176:
bottomWidth becomes the pixel quantity settings.width * settings.bottomWidth. -/
structure Chart where
  width : ℚ
  height : ℚ
  bottomWidth : ℚ
  bottomPinch : ℕ
  isCurved : Bool
  curveHeight : ℚ
  isInverted : Bool
  dynamicArea : Bool
  minHeight : Option ℚ
  deriving DecidableEq, Repr

/-- Mirrors the assignment block of the initializer, lines 162 to 176. -/
def initializeChart (s : Settings) : Chart :=
  { width := s.width, height := s.height,
    bottomWidth := s.width * s.bottomWidth,
    bottomPinch := s.bottomPinch, isCurved := s.isCurved,
    curveHeight := s.curveHeight, isInverted := s.isInverted,
    dynamicArea := s.dynamicArea, minHeight := s.minHeight }

/-- Line 176: this.bottomLeftX = (this.width - this.bottomWidth) / 2. -/
def Chart.bottomLeftX (c : Chart) : ℚ := (c.width - c.bottomWidth) / 2

/-- Lines 180 to 182: the initial horizontal velocity this.dx. -/
def Chart.dxInit (c : Chart) (n : ℕ) : ℚ :=
  if 0 < c.bottomPinch then c.bottomLeftX / ((n : ℚ) - (c.bottomPinch : ℚ))
  else c.bottomLeftX / (n : ℚ)

/-- Lines 185 to 187: the initial vertical velocity this.dy. -/
def Chart.dyInit (c : Chart) (n : ℕ) : ℚ :=
  if c.isCurved then (c.height - c.curveHeight) / (n : ℚ) else c.height / (n : ℚ)

/-- The mutable locals of the path loop in makePaths (lines 203 to 231). -/
structure PathState where
  dx : ℚ
  dy : ℚ
  prevLeftX : ℚ
  prevRightX : ℚ
  prevHeight : ℚ
  topBase : ℚ
  bottomBase : ℚ
  deriving DecidableEq, Repr

/-- The data of one funnel block produced by one iteration of the path loop:
the previous and next corner coordinates together with the velocities and
trapezoid bases in effect for that row. -/
structure Block where
  prevLeftX : ℚ
  prevRightX : ℚ
  prevHeight : ℚ
  nextLeftX : ℚ
  nextRightX : ℚ
  nextHeight : ℚ
  dx : ℚ
  dy : ℚ
  topBase : ℚ
  bottomBase : ℚ
  deriving DecidableEq, Repr

instance : Inhabited Block := ⟨⟨0, 0, 0, 0, 0, 0, 0, 0, 0, 0⟩⟩

/-- One iteration of the path loop (lines 254 to 346).  The arguments n, dx0,
totalCount, totalArea and slope are the quantities computed before the loop
(data length, this.dx, the harvested total count, and lines 233 to 242);
i is the row index and count the row value. -/
def makePathsStep (sq : ℚ → ℚ) (c : Chart) (n : ℕ) (dx0 totalCount totalArea slope : ℚ)
    (i : ℕ) (count : ℚ) (s0 : PathState) : Block × PathState :=
  -- Calculate dynamic shapes based on area (lines 258 to 275)
  let s1 :=
    if c.dynamicArea then
      let area := count / totalCount * totalArea
      let area :=
        match c.minHeight with
        | some mh => area + mh * (c.width + c.bottomWidth) / 2
        | none => area
      let bottomBase := sq ((slope * s0.topBase * s0.topBase - 4 * area) / slope)
      let dx := s0.topBase / 2 - bottomBase / 2
      let dy := area * 2 / (s0.topBase + bottomBase)
      let dy := if c.isCurved then dy - c.curveHeight / (n : ℚ) else dy
      { s0 with dx := dx, dy := dy, topBase := bottomBase, bottomBase := bottomBase }
    else s0
  -- Stop velocity for pinched blocks (lines 278 to 297)
  let dx :=
    if 0 < c.bottomPinch then
      if !c.isInverted then
        if n - c.bottomPinch ≤ i then 0 else s1.dx
      else
        let dxi := if !c.dynamicArea then dx0 else s1.dx
        if i < c.bottomPinch then 0 else dxi
    else s1.dx
  -- Calculate the position of the next block (lines 300 to 308)
  let nextLeftX := s1.prevLeftX + dx
  let nextRightX := s1.prevRightX - dx
  let nextHeight := s1.prevHeight + s1.dy
  let nextLeftX := if c.isInverted then s1.prevLeftX - dx else nextLeftX
  let nextRightX := if c.isInverted then s1.prevRightX + dx else nextRightX
  (⟨s1.prevLeftX, s1.prevRightX, s1.prevHeight, nextLeftX, nextRightX, nextHeight,
    dx, s1.dy, s0.topBase, s1.bottomBase⟩,
   { s1 with dx := dx, prevLeftX := nextLeftX, prevRightX := nextRightX,
             prevHeight := nextHeight })

/-- The path loop itself, one block per data row. -/
def makeBlocksGo (sq : ℚ → ℚ) (c : Chart) (n : ℕ) (dx0 totalCount totalArea slope : ℚ) :
    ℕ → PathState → List ℚ → List Block
  | _, _, [] => []
  | i, s, count :: rest =>
    (makePathsStep sq c n dx0 totalCount totalArea slope i count s).1 ::
      makeBlocksGo sq c n dx0 totalCount totalArea slope (i + 1)
        (makePathsStep sq c n dx0 totalCount totalArea slope i count s).2 rest

/-- The body of makePaths (lines 199 to 349) up to the path emission: the
initial state of lines 203 to 250 followed by the loop. -/
def makeBlocks (sq : ℚ → ℚ) (c : Chart) (counts : List ℚ) : List Block :=
  let n := counts.length
  let totalArea :=
    match c.minHeight with
    | some mh => (c.height - mh * (n : ℚ)) * (c.width + c.bottomWidth) / 2
    | none => c.height * (c.width + c.bottomWidth) / 2
  let slope := 2 * c.height / (c.width - c.bottomWidth)
  makeBlocksGo sq c n (c.dxInit n) counts.sum totalArea slope 0
    { dx := c.dxInit n, dy := c.dyInit n,
      prevLeftX := if c.isInverted then c.bottomLeftX else 0,
      prevRightX := if c.isInverted then c.width - c.bottomLeftX else c.width,
      prevHeight := if c.isCurved then 10 else 0,
      topBase := c.width, bottomBase := 0 } counts

/-- Path commands used in the emitted point triples: the source uses the
strings M, Q, the empty continuation string of a quadratic curve, and L. -/
inductive PathCmd where
  | move | quad | blank | line
  deriving DecidableEq, Repr

/-- One emitted point triple x, y, command. -/
structure PathPoint where
  x : ℚ
  y : ℚ
  cmd : PathCmd
  deriving DecidableEq, Repr

/-- The path pushed for one block: lines 311 to 340 of the source. -/
def blockPath (c : Chart) (b : Block) : List PathPoint :=
  let middle := c.width / 2
  if c.isCurved then
    [⟨b.prevLeftX, b.prevHeight, PathCmd.move⟩,
     ⟨middle, b.prevHeight + (c.curveHeight - 10), PathCmd.quad⟩,
     ⟨b.prevRightX, b.prevHeight, PathCmd.blank⟩,
     ⟨b.nextRightX, b.nextHeight, PathCmd.line⟩,
     ⟨b.nextRightX, b.nextHeight, PathCmd.move⟩,
     ⟨middle, b.nextHeight + c.curveHeight, PathCmd.quad⟩,
     ⟨b.nextLeftX, b.nextHeight, PathCmd.blank⟩,
     ⟨b.prevLeftX, b.prevHeight, PathCmd.line⟩]
  else
    [⟨b.prevLeftX, b.prevHeight, PathCmd.move⟩,
     ⟨b.prevRightX, b.prevHeight, PathCmd.line⟩,
     ⟨b.nextRightX, b.nextHeight, PathCmd.line⟩,
     ⟨b.nextLeftX, b.nextHeight, PathCmd.line⟩,
     ⟨b.prevLeftX, b.prevHeight, PathCmd.line⟩]

/-- The full path computation makePaths: one closed path per data row. -/
def makePaths (sq : ℚ → ℚ) (c : Chart) (data : List Row) : List (List PathPoint) :=
  (makeBlocks sq c (data.map rowValue)).map (blockPath c)

/-- The trapezoidal area of a block, measured from the vertical step and the
two bases recorded for its row. -/
def Block.area (b : Block) : ℚ := b.dy * (b.topBase + b.bottomBase) / 2

/-! The draw and destroy container lifecycle. -/

/-- The single error kind raised by draw: invalid input data (line 104). -/
inductive DrawError where
  | invalidInput
  deriving DecidableEq, Repr

/-- A node of the container element: an svg chart element (holding one group
per drawn block) or unrelated content not touched by the widget. -/
inductive DNode where
  | svg (groups : ℕ)
  | other
  deriving DecidableEq, Repr

/-- The container the chart is drawn into. -/
abbrev Container := List DNode

/-- destroy (lines 45 to 49): remove every svg element from the container. -/
def destroy (cont : Container) : Container :=
  cont.filter fun nd =>
    match nd with
    | DNode.svg _ => false
    | DNode.other => true

/-- The validation check of the initializer, line 103: the data must be a
nonempty list whose first row has at least two fields. -/
def dataIsValid (data : List Row) : Bool :=
  match data with
  | [] => false
  | first :: _ => decide (2 ≤ first.length)

/-- draw (lines 63 to 91): first destroy any previous drawing, then validate
the data inside the initializer, then append a fresh svg element and draw
one group per row into it.  The first component reports a raised error. -/
def draw (data : List Row) (cont : Container) : Option DrawError × Container :=
  let cont1 := destroy cont
  if dataIsValid data then
    (none, cont1 ++ [DNode.svg data.length])
  else
    (some DrawError.invalidInput, cont1)

/-! Width and height resolution. -/

/-- The dimension in effect before the fallback check: the user supplied
override when present, otherwise the measured container size (lines 118
to 127). -/
def effectiveDim (measured : ℚ) (override : Option ℚ) : ℚ :=
  match override with
  | some u => u
  | none => measured

/-- Lines 143 to 145: fall back to the hard default width 350 when the
effective width is not strictly positive. -/
def resolveWidth (measured : ℚ) (override : Option ℚ) : ℚ :=
  if effectiveDim measured override ≤ 0 then 350 else effectiveDim measured override

/-- Lines 146 to 148: fall back to the hard default height 400 when the
effective height is not strictly positive. -/
def resolveHeight (measured : ℚ) (override : Option ℚ) : ℚ :=
  if effectiveDim measured override ≤ 0 then 400 else effectiveDim measured override

/-! Label option merging. -/

/-- The label sub-key fontSize. -/
def keyFontSize : String := "fontSize"

/-- The label sub-key fill. -/
def keyFill : String := "fill"

/-- The default label font size. -/
def fontSize14 : String := "14px"

/-- The default label fill color. -/
def fillWhite : String := "#fff"

/-- The default label settings record (lines 33 to 36). -/
def labelDefaults : List (String × String) := [(keyFontSize, fontSize14), (keyFill, fillWhite)]

/-- Assignment to a JavaScript object key: overwrite the existing entry in
place, or append a new entry at the end. -/
def objSet (l : List (String × String)) (k v : String) : List (String × String) :=
  match l with
  | [] => [(k, v)]
  | (k1, v1) :: rest => if k1 = k then (k1, v) :: rest else (k1, v1) :: objSet rest k v

/-- Property lookup on a JavaScript object modelled as an entry list. -/
def lookupKey (k : String) : List (String × String) → Option String
  | [] => none
  | (k1, v) :: rest => if k1 = k then some v else lookupKey k rest

/-- The value of the last entry for a key, if any: the value a sequence of
object assignments for that key would leave in place. -/
def lookupLast (k : String) : List (String × String) → Option String
  | [] => none
  | (k1, v) :: rest =>
    match lookupLast k rest with
    | some r => some r
    | none => if k1 = k then some v else none

/-- Whether p occurs at the start of s. -/
def isPrefixOfChars (p : List Char) (s : List Char) : Bool :=
  match p, s with
  | [], _ => true
  | _ :: _, [] => false
  | a :: ps, b :: ss => a == b && isPrefixOfChars ps ss

/-- Whether p occurs anywhere inside s, the semantics of an unanchored
regular expression match against a fixed word. -/
def containsChars (p : List Char) : List Char → Bool
  | [] => isPrefixOfChars p []
  | b :: rest => isPrefixOfChars p (b :: rest) || containsChars p rest

/-- String containment test. -/
def hasSubstr (s pat : String) : Bool := containsChars pat.toList s.toList

/-- The unanchored regular expression fontSize|fill of line 131: a label
option key matches when it contains fontSize or fill anywhere inside it. -/
def labelKeyMatches (k : String) : Bool :=
  hasSubstr k keyFontSize || hasSubstr k keyFill

/-- Lines 130 to 138: fold the user label options over the defaults, merging
every key the regular expression matches. -/
def mergeLabel (defaults : List (String × String)) (opts : List (String × String)) :
    List (String × String) :=
  opts.foldl
    (fun acc kv => if labelKeyMatches kv.1 then objSet acc kv.1 kv.2 else acc) defaults

/-- Modelled from the claim wording: merge exactly the recognized sub-keys
fontSize and fill and ignore every other sub-key. -/
def mergeLabelClaim (defaults : List (String × String)) (opts : List (String × String)) :
    List (String × String) :=
  opts.foldl
    (fun acc kv =>
      if kv.1 = keyFontSize ∨ kv.1 = keyFill then objSet acc kv.1 kv.2 else acc)
    defaults

/-- An unrecognized label sub-key that the unanchored pattern still matches. -/
def keyFillX : String := "fillX"

/-- A sample label option value. -/
def valRed : String := "red"

/-! The color shading helper. -/

/-- The leading hash character of a hex color string. -/
def hashChar : Char := '#'

/-- One hexadecimal digit, lower or upper case, as accepted by the color
pattern of line 153. -/
def isHexDigitChar (c : Char) : Bool :=
  decide (('0' ≤ c ∧ c ≤ '9') ∨ ('a' ≤ c ∧ c ≤ 'f') ∨ ('A' ≤ c ∧ c ≤ 'F'))

/-- The numeric value of one hexadecimal digit, as parseInt with radix 16
reads it. -/
def hexDigitVal (c : Char) : ℕ :=
  if '0' ≤ c ∧ c ≤ '9' then c.toNat - 48
  else if 'a' ≤ c ∧ c ≤ 'f' then c.toNat - 97 + 10
  else if 'A' ≤ c ∧ c ≤ 'F' then c.toNat - 65 + 10
  else 0

/-- parseInt(characters, 16) on a string of hexadecimal digits. -/
def parseHex (cs : List Char) : ℕ := cs.foldl (fun a c => a * 16 + hexDigitVal c) 0

/-- The lower case character of one hexadecimal digit, as toString(16)
writes it. -/
def hexDigitChar (n : ℕ) : Char :=
  if n < 10 then Char.ofNat (48 + n) else Char.ofNat (87 + n)

/-- Fueled digit expansion; the fuel always suffices because the value
shrinks by a factor of 16 every step. -/
def natToHexCore : ℕ → ℕ → List Char
  | 0, _ => []
  | f + 1, n =>
    if n < 16 then [hexDigitChar n]
    else natToHexCore f (n / 16) ++ [hexDigitChar (n % 16)]

/-- n.toString(16): the hexadecimal digit list of a natural number. -/
def natToHex (n : ℕ) : List Char := natToHexCore (n + 1) n

/-- Math.round: round half toward positive infinity. -/
def jsRound (x : ℚ) : ℤ := ⌊x + 1 / 2⌋

/-- The color shading helper, lines 687 to 700 of the source: parse the
digits after the hash as one integer, split it into three bytes, move each
toward 0 or 255 by the shade fraction, and reassemble six digits. -/
def shadeColor (color : String) (shade : ℚ) : String :=
  let f : ℕ := parseHex (color.toList.drop 1)
  let t : ℤ := if shade < 0 then 0 else 255
  let p : ℚ := if shade < 0 then shade * (-1) else shade
  let R : ℕ := f / 65536
  let G : ℕ := f / 256 % 256
  let B : ℕ := f % 256
  let converted : ℤ :=
    16777216 + (jsRound (((t - (R : ℤ) : ℤ) : ℚ) * p) + (R : ℤ)) * 65536 +
      (jsRound (((t - (G : ℤ) : ℤ) : ℚ) * p) + (G : ℤ)) * 256 +
      (jsRound (((t - (B : ℤ) : ℤ) : ℚ) * p) + (B : ℤ))
  String.mk (hashChar :: (natToHex converted.toNat).drop 1)

/-- Modelled from the claim wording: one RGB channel linearly interpolated
toward 0 for a negative shade or toward 255 otherwise, by the magnitude of
the shade, rounded. -/
def shadeChannel (C : ℤ) (shade : ℚ) : ℤ :=
  let t : ℤ := if shade < 0 then 0 else 255
  let p : ℚ := if shade < 0 then shade * (-1) else shade
  jsRound ((C : ℚ) + ((t : ℤ) - C : ℤ) * p)

/-- The two hexadecimal digits of one channel value. -/
def hexPairChars (v : ℤ) : List Char :=
  [hexDigitChar (v.toNat / 16), hexDigitChar (v.toNat % 16)]

/-- Modelled from the claim wording: shade a 3 or 6 digit hex color by
interpolating each of its RGB channels independently, a 3 digit color
denoting the usual doubled digit channels. -/
def shadeColorSpec (color : String) (shade : ℚ) : String :=
  match color.toList with
  | [c0, r1, r2, g1, g2, b1, b2] =>
    String.mk (c0 ::
      (hexPairChars (shadeChannel ((hexDigitVal r1 * 16 + hexDigitVal r2 : ℕ) : ℤ) shade) ++
       hexPairChars (shadeChannel ((hexDigitVal g1 * 16 + hexDigitVal g2 : ℕ) : ℤ) shade) ++
       hexPairChars (shadeChannel ((hexDigitVal b1 * 16 + hexDigitVal b2 : ℕ) : ℤ) shade)))
  | [c0, r, g, b] =>
    String.mk (c0 ::
      (hexPairChars (shadeChannel ((hexDigitVal r * 16 + hexDigitVal r : ℕ) : ℤ) shade) ++
       hexPairChars (shadeChannel ((hexDigitVal g * 16 + hexDigitVal g : ℕ) : ℤ) shade) ++
       hexPairChars (shadeChannel ((hexDigitVal b * 16 + hexDigitVal b : ℕ) : ℤ) shade)))
  | _ => color

/-- The resolver's color pattern of line 153: a hash followed by exactly 3
or 6 hexadecimal digits. -/
def hexColorValid (s : String) : Bool :=
  match s.toList with
  | [] => false
  | c :: rest =>
    c == hashChar && (rest.length == 3 || rest.length == 6) &&
      rest.all isHexDigitChar

/-- The white 3 digit hex color. -/
def colorFFF : String := "#fff"

/-! Concrete fixtures used by the witness theorems. -/

/-- A trivial square root model: usable wherever a theorem holds for every
positive valued square root function. -/
def sqOne : ℚ → ℚ := fun _ => 1

/-- The default settings record of the constructor (lines 20 to 37). -/
def stDefault : Settings := ⟨350, 400, 1 / 3, 0, false, 20, false, false, none⟩

/-- The default settings with isInverted switched on. -/
def stInverted : Settings := ⟨350, 400, 1 / 3, 0, false, 20, true, false, none⟩

/-- The default settings with dynamicArea switched on. -/
def stDyn : Settings := ⟨350, 400, 1 / 3, 0, false, 20, false, true, none⟩

/-- The default settings with a bottom pinch of one block. -/
def stPinch : Settings := ⟨350, 400, 1 / 3, 1, false, 20, false, false, none⟩

/-- Three sample rows, values 40, 20 and 10. -/
def rows3 : List Row :=
  [[Cell.num 0, Cell.num 40], [Cell.num 0, Cell.num 20], [Cell.num 0, Cell.num 10]]

/-- Two sample rows, values 2 and 3. -/
def rows2 : List Row := [[Cell.num 0, Cell.num 2], [Cell.num 0, Cell.num 3]]

/-! Generic lemmas about the path loop. -/

theorem makeBlocksGo_length (sq : ℚ → ℚ) (c : Chart) (n : ℕ)
    (dx0 tc ta sl : ℚ) :
    ∀ (counts : List ℚ) (i : ℕ) (s : PathState),
      (makeBlocksGo sq c n dx0 tc ta sl i s counts).length = counts.length := by
  intro counts
  induction counts with
  | nil => intro i s; rfl
  | cons v rest ih => intro i s; simp [makeBlocksGo, ih]

theorem makeBlocks_length (sq : ℚ → ℚ) (c : Chart) (counts : List ℚ) :
    (makeBlocks sq c counts).length = counts.length := by
  simp [makeBlocks, makeBlocksGo_length]

theorem makePathsStep_center (sq : ℚ → ℚ) (c : Chart) (n : ℕ)
    (dx0 tc ta sl : ℚ) (i : ℕ) (v : ℚ) (s : PathState)
    (h : s.prevLeftX + s.prevRightX = c.width) :
    ((makePathsStep sq c n dx0 tc ta sl i v s).1.prevLeftX +
        (makePathsStep sq c n dx0 tc ta sl i v s).1.prevRightX = c.width ∧
      (makePathsStep sq c n dx0 tc ta sl i v s).1.nextLeftX +
        (makePathsStep sq c n dx0 tc ta sl i v s).1.nextRightX = c.width) ∧
    (makePathsStep sq c n dx0 tc ta sl i v s).2.prevLeftX +
      (makePathsStep sq c n dx0 tc ta sl i v s).2.prevRightX = c.width := by
  refine ⟨⟨?_, ?_⟩, ?_⟩ <;>
    cases hdyn : c.dynamicArea <;> cases hinv : c.isInverted <;>
      simp [makePathsStep, hdyn, hinv] <;> linarith

theorem makeBlocksGo_centered (sq : ℚ → ℚ) (c : Chart) (n : ℕ)
    (dx0 tc ta sl : ℚ) :
    ∀ (counts : List ℚ) (i : ℕ) (s : PathState),
      s.prevLeftX + s.prevRightX = c.width →
      ∀ b ∈ makeBlocksGo sq c n dx0 tc ta sl i s counts,
        b.prevLeftX + b.prevRightX = c.width ∧
        b.nextLeftX + b.nextRightX = c.width := by
  intro counts
  induction counts with
  | nil => intro i s h b hb; simp [makeBlocksGo] at hb
  | cons v rest ih =>
    intro i s h b hb
    simp only [makeBlocksGo, List.mem_cons] at hb
    obtain rfl | hb := hb
    · exact (makePathsStep_center sq c n dx0 tc ta sl i v s h).1
    · exact ih (i + 1) _ (makePathsStep_center sq c n dx0 tc ta sl i v s h).2 b hb

/-- C3: for every square root model, chart configuration and row list of
length at least one, the path computation returns exactly one path per row,
in input order, and each path has 5 point entries when non-curved and 8
when curved. -/
theorem makePaths_one_path_per_row (sq : ℚ → ℚ) (c : Chart) (data : List Row)
    (h : 1 ≤ data.length) :
    (makePaths sq c data).length = data.length ∧
    ∀ p ∈ makePaths sq c data, p.length = if c.isCurved then 8 else 5 := by
  constructor
  · simp [makePaths, makeBlocks_length]
  · intro p hp
    simp only [makePaths, List.mem_map] at hp
    obtain ⟨b, hb, rfl⟩ := hp
    cases hc : c.isCurved <;> simp [blockPath, hc]

theorem makePaths_one_path_per_row_witness :
    1 ≤ ([[Cell.num 0, Cell.num 40], [Cell.num 0, Cell.num 20]] : List Row).length ∧
    ((makePaths (fun _ => 1)
        (initializeChart ⟨350, 400, 1 / 3, 0, false, 20, false, false, none⟩)
        [[Cell.num 0, Cell.num 40], [Cell.num 0, Cell.num 20]]).length =
      ([[Cell.num 0, Cell.num 40], [Cell.num 0, Cell.num 20]] : List Row).length ∧
    ∀ p ∈ makePaths (fun _ => 1)
        (initializeChart ⟨350, 400, 1 / 3, 0, false, 20, false, false, none⟩)
        [[Cell.num 0, Cell.num 40], [Cell.num 0, Cell.num 20]],
      p.length = if (initializeChart
          ⟨350, 400, 1 / 3, 0, false, 20, false, false, none⟩).isCurved then 8 else 5) :=
  ⟨by simp, makePaths_one_path_per_row (fun _ => 1)
    (initializeChart ⟨350, 400, 1 / 3, 0, false, 20, false, false, none⟩)
    [[Cell.num 0, Cell.num 40], [Cell.num 0, Cell.num 20]] (by simp)⟩

/-- C10: every block emitted by the path computation is horizontally
centered: in every configuration the running left and right x coordinates
sum to the configured width at the top edge and at the bottom edge of every
block. -/
theorem makePaths_blocks_centered (sq : ℚ → ℚ) (c : Chart) (data : List Row) :
    ∀ b ∈ makeBlocks sq c (data.map rowValue),
      b.prevLeftX + b.prevRightX = c.width ∧
      b.nextLeftX + b.nextRightX = c.width := by
  intro b hb
  simp only [makeBlocks] at hb
  refine makeBlocksGo_centered sq c _ _ _ _ _ _ 0 _ ?_ b hb
  cases hinv : c.isInverted <;> simp [hinv, Chart.bottomLeftX]

theorem makePaths_blocks_centered_witness :
    ((makeBlocks sqOne (initializeChart stDefault) (rows3.map rowValue)).head! ∈
      makeBlocks sqOne (initializeChart stDefault) (rows3.map rowValue)) ∧
    ((makeBlocks sqOne (initializeChart stDefault) (rows3.map rowValue)).head!.prevLeftX +
      (makeBlocks sqOne (initializeChart stDefault) (rows3.map rowValue)).head!.prevRightX =
        (initializeChart stDefault).width ∧
    (makeBlocks sqOne (initializeChart stDefault) (rows3.map rowValue)).head!.nextLeftX +
      (makeBlocks sqOne (initializeChart stDefault) (rows3.map rowValue)).head!.nextRightX =
        (initializeChart stDefault).width) := by
  have hne : makeBlocks sqOne (initializeChart stDefault) (rows3.map rowValue) ≠ [] := by
    intro h
    have hl := makeBlocks_length sqOne (initializeChart stDefault) (rows3.map rowValue)
    rw [h] at hl
    simp [rows3] at hl
  have hmem := List.head!_mem_self hne
  exact ⟨hmem,
    makePaths_blocks_centered sqOne (initializeChart stDefault) rows3 _ hmem⟩

/-! Static-mode characterization of the loop, used for the edge width and
pinch claims. -/

theorem makePathsStep_static_upright (sq : ℚ → ℚ) (c : Chart) (n : ℕ)
    (dx0 tc ta sl : ℚ) (i : ℕ) (v : ℚ) (s : PathState)
    (hd : c.dynamicArea = false) (hp : c.bottomPinch = 0)
    (hi : c.isInverted = false) :
    makePathsStep sq c n dx0 tc ta sl i v s =
      (⟨s.prevLeftX, s.prevRightX, s.prevHeight,
        s.prevLeftX + s.dx, s.prevRightX - s.dx, s.prevHeight + s.dy,
        s.dx, s.dy, s.topBase, s.bottomBase⟩,
       { s with prevLeftX := s.prevLeftX + s.dx, prevRightX := s.prevRightX - s.dx,
                prevHeight := s.prevHeight + s.dy }) := by
  simp [makePathsStep, hd, hp, hi]

theorem makePathsStep_static_inverted (sq : ℚ → ℚ) (c : Chart) (n : ℕ)
    (dx0 tc ta sl : ℚ) (i : ℕ) (v : ℚ) (s : PathState)
    (hd : c.dynamicArea = false) (hp : c.bottomPinch = 0)
    (hi : c.isInverted = true) :
    makePathsStep sq c n dx0 tc ta sl i v s =
      (⟨s.prevLeftX, s.prevRightX, s.prevHeight,
        s.prevLeftX - s.dx, s.prevRightX + s.dx, s.prevHeight + s.dy,
        s.dx, s.dy, s.topBase, s.bottomBase⟩,
       { s with prevLeftX := s.prevLeftX - s.dx, prevRightX := s.prevRightX + s.dx,
                prevHeight := s.prevHeight + s.dy }) := by
  simp [makePathsStep, hd, hp, hi]

theorem makeBlocksGo_static_upright_get (sq : ℚ → ℚ) (c : Chart) (n : ℕ)
    (dx0 tc ta sl : ℚ)
    (hd : c.dynamicArea = false) (hp : c.bottomPinch = 0)
    (hi : c.isInverted = false) :
    ∀ (counts : List ℚ) (i : ℕ) (s : PathState) (j : ℕ), j < counts.length →
      (makeBlocksGo sq c n dx0 tc ta sl i s counts).getD j default =
        ⟨s.prevLeftX + j * s.dx, s.prevRightX - j * s.dx, s.prevHeight + j * s.dy,
         s.prevLeftX + (j + 1) * s.dx, s.prevRightX - (j + 1) * s.dx,
         s.prevHeight + (j + 1) * s.dy, s.dx, s.dy, s.topBase, s.bottomBase⟩ := by
  intro counts
  induction counts with
  | nil => intro i s j hj; simp at hj
  | cons v rest ih =>
    intro i s j hj
    cases j with
    | zero =>
      simp only [makeBlocksGo, List.getD_cons_zero,
        makePathsStep_static_upright sq c n dx0 tc ta sl i v s hd hp hi]
      simp only [Block.mk.injEq]
      push_cast
      and_intros <;> ring_nf
    | succ j =>
      have hj' : j < rest.length := by simpa using hj
      simp only [makeBlocksGo, List.getD_cons_succ,
        makePathsStep_static_upright sq c n dx0 tc ta sl i v s hd hp hi]
      rw [ih (i + 1) _ j hj']
      simp only [Block.mk.injEq]
      push_cast
      and_intros <;> ring_nf

theorem makeBlocksGo_static_inverted_get (sq : ℚ → ℚ) (c : Chart) (n : ℕ)
    (dx0 tc ta sl : ℚ)
    (hd : c.dynamicArea = false) (hp : c.bottomPinch = 0)
    (hi : c.isInverted = true) :
    ∀ (counts : List ℚ) (i : ℕ) (s : PathState) (j : ℕ), j < counts.length →
      (makeBlocksGo sq c n dx0 tc ta sl i s counts).getD j default =
        ⟨s.prevLeftX - j * s.dx, s.prevRightX + j * s.dx, s.prevHeight + j * s.dy,
         s.prevLeftX - (j + 1) * s.dx, s.prevRightX + (j + 1) * s.dx,
         s.prevHeight + (j + 1) * s.dy, s.dx, s.dy, s.topBase, s.bottomBase⟩ := by
  intro counts
  induction counts with
  | nil => intro i s j hj; simp at hj
  | cons v rest ih =>
    intro i s j hj
    cases j with
    | zero =>
      simp only [makeBlocksGo, List.getD_cons_zero,
        makePathsStep_static_inverted sq c n dx0 tc ta sl i v s hd hp hi]
      simp only [Block.mk.injEq]
      push_cast
      and_intros <;> ring_nf
    | succ j =>
      have hj' : j < rest.length := by simpa using hj
      simp only [makeBlocksGo, List.getD_cons_succ,
        makePathsStep_static_inverted sq c n dx0 tc ta sl i v s hd hp hi]
      rw [ih (i + 1) _ j hj']
      simp only [Block.mk.injEq]
      push_cast
      and_intros <;> ring_nf

theorem makeBlocks_static_upright_get (sq : ℚ → ℚ) (c : Chart)
    (hd : c.dynamicArea = false) (hp : c.bottomPinch = 0)
    (hi : c.isInverted = false)
    (counts : List ℚ) (j : ℕ) (hj : j < counts.length) :
    (makeBlocks sq c counts).getD j default =
      ⟨j * c.dxInit counts.length, c.width - j * c.dxInit counts.length,
       (if c.isCurved then 10 else 0) + j * c.dyInit counts.length,
       (j + 1) * c.dxInit counts.length, c.width - (j + 1) * c.dxInit counts.length,
       (if c.isCurved then 10 else 0) + (j + 1) * c.dyInit counts.length,
       c.dxInit counts.length, c.dyInit counts.length, c.width, 0⟩ := by
  simp only [makeBlocks]
  rw [makeBlocksGo_static_upright_get sq c _ _ _ _ _ hd hp hi counts 0 _ j hj]
  simp [hi]

theorem makeBlocks_static_inverted_get (sq : ℚ → ℚ) (c : Chart)
    (hd : c.dynamicArea = false) (hp : c.bottomPinch = 0)
    (hi : c.isInverted = true)
    (counts : List ℚ) (j : ℕ) (hj : j < counts.length) :
    (makeBlocks sq c counts).getD j default =
      ⟨c.bottomLeftX - j * c.dxInit counts.length,
       c.width - c.bottomLeftX + j * c.dxInit counts.length,
       (if c.isCurved then 10 else 0) + j * c.dyInit counts.length,
       c.bottomLeftX - (j + 1) * c.dxInit counts.length,
       c.width - c.bottomLeftX + (j + 1) * c.dxInit counts.length,
       (if c.isCurved then 10 else 0) + (j + 1) * c.dyInit counts.length,
       c.dxInit counts.length, c.dyInit counts.length, c.width, 0⟩ := by
  simp only [makeBlocks]
  rw [makeBlocksGo_static_inverted_get sq c _ _ _ _ _ hd hp hi counts 0 _ j hj]
  simp [hi, sub_eq_add_neg]

/-- C6: on a non-inverted, non-pinched, non-dynamic, non-curved chart the
first block's top edge spans the full configured width, and the last
block's bottom edge spans the configured bottom width, that is the width
multiplied by the bottom width ratio. -/
theorem upright_edge_widths (sq : ℚ → ℚ) (st : Settings) (data : List Row)
    (hi : st.isInverted = false) (hp : st.bottomPinch = 0)
    (hd : st.dynamicArea = false) (hc : st.isCurved = false)
    (hn : 1 ≤ data.length) :
    ((makeBlocks sq (initializeChart st) (data.map rowValue)).getD 0
        default).prevRightX -
      ((makeBlocks sq (initializeChart st) (data.map rowValue)).getD 0
        default).prevLeftX = st.width ∧
    ((makeBlocks sq (initializeChart st) (data.map rowValue)).getD
        (data.length - 1) default).nextRightX -
      ((makeBlocks sq (initializeChart st) (data.map rowValue)).getD
        (data.length - 1) default).nextLeftX = st.width * st.bottomWidth := by
  set c := initializeChart st with hcdef
  have hi' : c.isInverted = false := by simp [hcdef, initializeChart, hi]
  have hp' : c.bottomPinch = 0 := by simp [hcdef, initializeChart, hp]
  have hd' : c.dynamicArea = false := by simp [hcdef, initializeChart, hd]
  have hlen : (data.map rowValue).length = data.length := by simp
  have hn0 : ((data.length : ℚ)) ≠ 0 := Nat.cast_ne_zero.mpr (by omega)
  constructor
  · rw [makeBlocks_static_upright_get sq c hd' hp' hi' _ 0 (by rw [hlen]; omega)]
    simp [hcdef, initializeChart]
  · rw [makeBlocks_static_upright_get sq c hd' hp' hi' _ (data.length - 1)
      (by rw [hlen]; omega)]
    simp only [hlen]
    rw [Nat.cast_sub hn]
    simp [Chart.dxInit, Chart.bottomLeftX, hcdef, initializeChart, hp]
    field_simp
    ring

/-- C7: on an inverted, non-pinched, non-dynamic, non-curved chart the
geometry mirrors the upright case under a top and bottom width swap: the
first block's top edge spans the configured bottom width and the last
block's bottom edge spans the full configured width. -/
theorem inverted_edge_widths (sq : ℚ → ℚ) (st : Settings) (data : List Row)
    (hi : st.isInverted = true) (hp : st.bottomPinch = 0)
    (hd : st.dynamicArea = false) (hc : st.isCurved = false)
    (hn : 1 ≤ data.length) :
    ((makeBlocks sq (initializeChart st) (data.map rowValue)).getD 0
        default).prevRightX -
      ((makeBlocks sq (initializeChart st) (data.map rowValue)).getD 0
        default).prevLeftX = st.width * st.bottomWidth ∧
    ((makeBlocks sq (initializeChart st) (data.map rowValue)).getD
        (data.length - 1) default).nextRightX -
      ((makeBlocks sq (initializeChart st) (data.map rowValue)).getD
        (data.length - 1) default).nextLeftX = st.width := by
  set c := initializeChart st with hcdef
  have hi' : c.isInverted = true := by simp [hcdef, initializeChart, hi]
  have hp' : c.bottomPinch = 0 := by simp [hcdef, initializeChart, hp]
  have hd' : c.dynamicArea = false := by simp [hcdef, initializeChart, hd]
  have hlen : (data.map rowValue).length = data.length := by simp
  have hn0 : ((data.length : ℚ)) ≠ 0 := Nat.cast_ne_zero.mpr (by omega)
  constructor
  · rw [makeBlocks_static_inverted_get sq c hd' hp' hi' _ 0 (by rw [hlen]; omega)]
    simp only [Chart.bottomLeftX, hcdef, initializeChart]
    push_cast
    ring
  · rw [makeBlocks_static_inverted_get sq c hd' hp' hi' _ (data.length - 1)
      (by rw [hlen]; omega)]
    simp only [hlen]
    rw [Nat.cast_sub hn]
    simp [Chart.dxInit, Chart.bottomLeftX, hcdef, initializeChart, hp]
    field_simp
    ring

theorem makePathsStep_pinched_upright (sq : ℚ → ℚ) (c : Chart) (n : ℕ)
    (dx0 tc ta sl : ℚ) (i : ℕ) (v : ℚ) (s : PathState)
    (hi : c.isInverted = false) (hp : 0 < c.bottomPinch)
    (hin : n - c.bottomPinch ≤ i) :
    (makePathsStep sq c n dx0 tc ta sl i v s).1.nextLeftX =
      (makePathsStep sq c n dx0 tc ta sl i v s).1.prevLeftX ∧
    (makePathsStep sq c n dx0 tc ta sl i v s).1.nextRightX =
      (makePathsStep sq c n dx0 tc ta sl i v s).1.prevRightX := by
  cases hdyn : c.dynamicArea <;> simp [makePathsStep, hi, hp, hdyn, hin]

theorem makeBlocksGo_pinched_upright (sq : ℚ → ℚ) (c : Chart) (n : ℕ)
    (dx0 tc ta sl : ℚ)
    (hi : c.isInverted = false) (hp : 0 < c.bottomPinch) :
    ∀ (counts : List ℚ) (i : ℕ) (s : PathState) (j : ℕ), j < counts.length →
      n - c.bottomPinch ≤ i + j →
      ((makeBlocksGo sq c n dx0 tc ta sl i s counts).getD j default).nextLeftX =
        ((makeBlocksGo sq c n dx0 tc ta sl i s counts).getD j default).prevLeftX ∧
      ((makeBlocksGo sq c n dx0 tc ta sl i s counts).getD j default).nextRightX =
        ((makeBlocksGo sq c n dx0 tc ta sl i s counts).getD j default).prevRightX := by
  intro counts
  induction counts with
  | nil => intro i s j hj hij; simp at hj
  | cons v rest ih =>
    intro i s j hj hij
    cases j with
    | zero =>
      simp only [makeBlocksGo, List.getD_cons_zero]
      exact makePathsStep_pinched_upright sq c n dx0 tc ta sl i v s hi hp
        (by omega)
    | succ j =>
      have hj' : j < rest.length := by simpa using hj
      simp only [makeBlocksGo, List.getD_cons_succ]
      exact ih (i + 1) _ j hj' (by omega)

/-- C8: on a non-inverted, non-dynamic chart with pinch count p satisfying
0 < p and p at most the row count, each of the last p blocks has zero
horizontal taper: its top left x equals its bottom left x and its top right
x equals its bottom right x. -/
theorem pinched_blocks_vertical_edges (sq : ℚ → ℚ) (c : Chart) (data : List Row)
    (hi : c.isInverted = false) (hd : c.dynamicArea = false)
    (hp : 0 < c.bottomPinch) (hpn : c.bottomPinch ≤ data.length)
    (j : ℕ) (hj1 : data.length - c.bottomPinch ≤ j) (hj2 : j < data.length) :
    ((makeBlocks sq c (data.map rowValue)).getD j default).nextLeftX =
      ((makeBlocks sq c (data.map rowValue)).getD j default).prevLeftX ∧
    ((makeBlocks sq c (data.map rowValue)).getD j default).nextRightX =
      ((makeBlocks sq c (data.map rowValue)).getD j default).prevRightX := by
  simp only [makeBlocks]
  exact makeBlocksGo_pinched_upright sq c _ _ _ _ _ hi hp _ 0 _ j
    (by simpa using hj2) (by simp only [List.length_map]; omega)

theorem upright_edge_widths_witness :
    (stDefault.isInverted = false ∧ stDefault.bottomPinch = 0 ∧
      stDefault.dynamicArea = false ∧ stDefault.isCurved = false ∧
      1 ≤ rows3.length) ∧
    (((makeBlocks sqOne (initializeChart stDefault) (rows3.map rowValue)).getD 0
        default).prevRightX -
      ((makeBlocks sqOne (initializeChart stDefault) (rows3.map rowValue)).getD 0
        default).prevLeftX = stDefault.width ∧
    ((makeBlocks sqOne (initializeChart stDefault) (rows3.map rowValue)).getD
        (rows3.length - 1) default).nextRightX -
      ((makeBlocks sqOne (initializeChart stDefault) (rows3.map rowValue)).getD
        (rows3.length - 1) default).nextLeftX =
        stDefault.width * stDefault.bottomWidth) :=
  ⟨⟨rfl, rfl, rfl, rfl, by simp [rows3]⟩,
    upright_edge_widths sqOne stDefault rows3 rfl rfl rfl rfl (by simp [rows3])⟩

theorem inverted_edge_widths_witness :
    (stInverted.isInverted = true ∧ stInverted.bottomPinch = 0 ∧
      stInverted.dynamicArea = false ∧ stInverted.isCurved = false ∧
      1 ≤ rows3.length) ∧
    (((makeBlocks sqOne (initializeChart stInverted) (rows3.map rowValue)).getD 0
        default).prevRightX -
      ((makeBlocks sqOne (initializeChart stInverted) (rows3.map rowValue)).getD 0
        default).prevLeftX = stInverted.width * stInverted.bottomWidth ∧
    ((makeBlocks sqOne (initializeChart stInverted) (rows3.map rowValue)).getD
        (rows3.length - 1) default).nextRightX -
      ((makeBlocks sqOne (initializeChart stInverted) (rows3.map rowValue)).getD
        (rows3.length - 1) default).nextLeftX = stInverted.width) :=
  ⟨⟨rfl, rfl, rfl, rfl, by simp [rows3]⟩,
    inverted_edge_widths sqOne stInverted rows3 rfl rfl rfl rfl (by simp [rows3])⟩

theorem pinched_blocks_vertical_edges_witness :
    ((initializeChart stPinch).isInverted = false ∧
      (initializeChart stPinch).dynamicArea = false ∧
      0 < (initializeChart stPinch).bottomPinch ∧
      (initializeChart stPinch).bottomPinch ≤ rows3.length ∧
      rows3.length - (initializeChart stPinch).bottomPinch ≤ 2 ∧
      2 < rows3.length) ∧
    (((makeBlocks sqOne (initializeChart stPinch) (rows3.map rowValue)).getD 2
        default).nextLeftX =
      ((makeBlocks sqOne (initializeChart stPinch) (rows3.map rowValue)).getD 2
        default).prevLeftX ∧
    ((makeBlocks sqOne (initializeChart stPinch) (rows3.map rowValue)).getD 2
        default).nextRightX =
      ((makeBlocks sqOne (initializeChart stPinch) (rows3.map rowValue)).getD 2
        default).prevRightX) :=
  ⟨⟨rfl, rfl, by decide, by decide, by decide, by decide⟩,
    pinched_blocks_vertical_edges sqOne (initializeChart stPinch) rows3 rfl rfl
      (by decide) (by decide) 2 (by decide) (by decide)⟩

/-! Dynamic area mode. -/

theorem sum_map_div_mul (l : List ℚ) (T A : ℚ) :
    (l.map fun v => v / T * A).sum = l.sum / T * A := by
  induction l with
  | nil => simp
  | cons v rest ih => simp [ih]; ring

theorem makePathsStep_dynamic_area (sq : ℚ → ℚ) (c : Chart) (n : ℕ)
    (dx0 tc ta sl : ℚ) (i : ℕ) (v : ℚ) (s : PathState)
    (hd : c.dynamicArea = true) (hc : c.isCurved = false) (hm : c.minHeight = none)
    (hsum : s.topBase + sq ((sl * s.topBase * s.topBase - 4 * (v / tc * ta)) / sl) ≠ 0) :
    Block.area (makePathsStep sq c n dx0 tc ta sl i v s).1 = v / tc * ta ∧
    (makePathsStep sq c n dx0 tc ta sl i v s).2.topBase =
      sq ((sl * s.topBase * s.topBase - 4 * (v / tc * ta)) / sl) := by
  constructor
  · simp only [makePathsStep, hd, hc, hm, Block.area, if_true, Bool.false_eq_true,
      if_false]
    generalize sq ((sl * s.topBase * s.topBase - 4 * (v / tc * ta)) / sl) = B
      at hsum ⊢
    generalize v / tc * ta = A
    rw [div_mul_cancel₀ _ hsum]
    ring
  · simp [makePathsStep, hd, hc, hm]

theorem makeBlocksGo_dynamic_area_map (sq : ℚ → ℚ) (c : Chart) (n : ℕ)
    (dx0 tc ta sl : ℚ)
    (hd : c.dynamicArea = true) (hc : c.isCurved = false) (hm : c.minHeight = none)
    (hsq : ∀ x, 0 < sq x) :
    ∀ (counts : List ℚ) (i : ℕ) (s : PathState), 0 < s.topBase →
      (makeBlocksGo sq c n dx0 tc ta sl i s counts).map Block.area =
        counts.map (fun v => v / tc * ta) := by
  intro counts
  induction counts with
  | nil => intro i s hs; rfl
  | cons v rest ih =>
    intro i s hs
    have hbb : 0 < sq ((sl * s.topBase * s.topBase - 4 * (v / tc * ta)) / sl) :=
      hsq _
    have hsum : s.topBase +
        sq ((sl * s.topBase * s.topBase - 4 * (v / tc * ta)) / sl) ≠ 0 :=
      ne_of_gt (by linarith)
    obtain ⟨h1, h2⟩ :=
      makePathsStep_dynamic_area sq c n dx0 tc ta sl i v s hd hc hm hsum
    simp only [makeBlocksGo, List.map_cons]
    rw [h1, ih (i + 1) _ (by rw [h2]; exact hbb)]

/-- C1: in dynamic area mode on a non-curved chart with the minimum height
floor disabled and strictly positive row values, the list of trapezoidal
block areas is exactly the list of value shares of the configured total
funnel area, and those areas sum to the configured total funnel area
height * (width + bottomWidth) / 2. -/
theorem dynamic_area_proportional (sq : ℚ → ℚ) (c : Chart) (data : List Row)
    (hd : c.dynamicArea = true) (hc : c.isCurved = false) (hm : c.minHeight = none)
    (hw : 0 < c.width) (hsq : ∀ x, 0 < sq x) (hne : data ≠ [])
    (hpos : ∀ r ∈ data, 0 < rowValue r) :
    (makeBlocks sq c (data.map rowValue)).map Block.area =
      (data.map rowValue).map (fun v => v / (data.map rowValue).sum *
        (c.height * (c.width + c.bottomWidth) / 2)) ∧
    ((makeBlocks sq c (data.map rowValue)).map Block.area).sum =
      c.height * (c.width + c.bottomWidth) / 2 := by
  have hposmap : ∀ v ∈ data.map rowValue, 0 < v := by
    simp only [List.mem_map]
    rintro v ⟨r, hr, rfl⟩
    exact hpos r hr
  have hnemap : data.map rowValue ≠ [] := by simpa using hne
  have hT : 0 < (data.map rowValue).sum := List.sum_pos _ hposmap hnemap
  have hmain : (makeBlocks sq c (data.map rowValue)).map Block.area =
      (data.map rowValue).map (fun v => v / (data.map rowValue).sum *
        (c.height * (c.width + c.bottomWidth) / 2)) := by
    simp only [makeBlocks, hm]
    exact makeBlocksGo_dynamic_area_map sq c _ _ _ _ _ hd hc hm hsq
      (data.map rowValue) 0 _ (by simpa using hw)
  refine ⟨hmain, ?_⟩
  rw [hmain, sum_map_div_mul, div_self (ne_of_gt hT), one_mul]

theorem dynamic_area_proportional_witness :
    ((initializeChart stDyn).dynamicArea = true ∧
      (initializeChart stDyn).isCurved = false ∧
      (initializeChart stDyn).minHeight = none ∧
      0 < (initializeChart stDyn).width ∧
      (∀ x, 0 < sqOne x) ∧ rows2 ≠ [] ∧ (∀ r ∈ rows2, 0 < rowValue r)) ∧
    ((makeBlocks sqOne (initializeChart stDyn) (rows2.map rowValue)).map Block.area =
      (rows2.map rowValue).map (fun v => v / (rows2.map rowValue).sum *
        ((initializeChart stDyn).height *
          ((initializeChart stDyn).width + (initializeChart stDyn).bottomWidth) / 2)) ∧
    ((makeBlocks sqOne (initializeChart stDyn) (rows2.map rowValue)).map
        Block.area).sum =
      (initializeChart stDyn).height *
        ((initializeChart stDyn).width + (initializeChart stDyn).bottomWidth) / 2) :=
  ⟨⟨rfl, rfl, rfl, by decide, fun _ => one_pos, by simp [rows2],
      by simp [rows2, rowValue]⟩,
    dynamic_area_proportional sqOne (initializeChart stDyn) rows2 rfl rfl rfl
      (by decide) (fun _ => one_pos) (by simp [rows2]) (by simp [rows2, rowValue])⟩

/-! Error handling in draw. -/

/-- C2 counterexample: drawing the malformed empty row list into a container
holding a previously drawn chart raises the invalid input error, yet the
container is not left unchanged, because draw calls destroy before it
validates. -/
theorem draw_invalid_not_unchanged :
    (draw [] [DNode.svg 3]).1 = some DrawError.invalidInput ∧
    (draw [] [DNode.svg 3]).2 ≠ [DNode.svg 3] := by decide

/-- C2 amended: for every malformed input the invalid input error is raised
before any new rendering and nothing is ever added to the container, but
previously drawn svg elements are removed first, so the result is exactly
the destroyed container, a sublist of the original one. -/
theorem draw_invalid_input (data : List Row) (cont : Container)
    (h : dataIsValid data = false) :
    (draw data cont).1 = some DrawError.invalidInput ∧
    (draw data cont).2 = destroy cont ∧
    (draw data cont).2.Sublist cont := by
  refine ⟨by simp [draw, h], by simp [draw, h], ?_⟩
  simp only [draw, h, Bool.false_eq_true, if_false]
  exact List.filter_sublist cont

theorem draw_invalid_input_witness :
    dataIsValid [] = false ∧
    ((draw [] [DNode.svg 3, DNode.other]).1 = some DrawError.invalidInput ∧
      (draw [] [DNode.svg 3, DNode.other]).2 = destroy [DNode.svg 3, DNode.other] ∧
      (draw [] [DNode.svg 3, DNode.other]).2.Sublist [DNode.svg 3, DNode.other]) :=
  ⟨rfl, draw_invalid_input [] [DNode.svg 3, DNode.other] rfl⟩

/-! Width and height fallback. -/

/-- C4: the resolved width and height are always strictly positive, and
whenever the container measurement or user override is not strictly
positive the dimension falls back to the hard defaults 350 and 400. -/
theorem resolved_dimensions_positive (mw mh : ℚ) (ow oh : Option ℚ) :
    0 < resolveWidth mw ow ∧ 0 < resolveHeight mh oh ∧
    (effectiveDim mw ow ≤ 0 → resolveWidth mw ow = 350) ∧
    (effectiveDim mh oh ≤ 0 → resolveHeight mh oh = 400) := by
  refine ⟨?_, ?_, ?_, ?_⟩
  · by_cases h : effectiveDim mw ow ≤ 0 <;> simp [resolveWidth, h]
    exact not_le.mp h
  · by_cases h : effectiveDim mh oh ≤ 0 <;> simp [resolveHeight, h]
    exact not_le.mp h
  · intro h; simp [resolveWidth, h]
  · intro h; simp [resolveHeight, h]

theorem resolved_dimensions_positive_witness :
    0 < resolveWidth 0 none ∧ 0 < resolveHeight (-7) none ∧
    resolveWidth 0 none = 350 ∧ resolveHeight (-7) none = 400 := by
  obtain ⟨h1, h2, h3, h4⟩ := resolved_dimensions_positive 0 (-7) none none
  exact ⟨h1, h2, h3 (by norm_num [effectiveDim]), h4 (by norm_num [effectiveDim])⟩

/-! Label option merging. -/

theorem lookupKey_objSet_self (l : List (String × String)) (k v : String) :
    lookupKey k (objSet l k v) = some v := by
  induction l with
  | nil => simp [objSet, lookupKey]
  | cons kv rest ih =>
    obtain ⟨k1, v1⟩ := kv
    by_cases h : k1 = k <;> simp [objSet, lookupKey, h, ih]

theorem lookupKey_objSet_other (l : List (String × String)) (k k2 v : String)
    (h : k2 ≠ k) :
    lookupKey k (objSet l k2 v) = lookupKey k l := by
  induction l with
  | nil => simp [objSet, lookupKey, h]
  | cons kv rest ih =>
    obtain ⟨k1, v1⟩ := kv
    by_cases h1 : k1 = k2 <;> by_cases h2 : k1 = k <;>
      simp_all [objSet, lookupKey]

/-- C5 counterexample: the unrecognized label sub-key fillX is nevertheless
merged into the resolved label settings, because the unanchored pattern
fontSize|fill matches it, while the claimed merge of exactly the two
recognized sub-keys would ignore it. -/
theorem label_unrecognized_key_merged :
    lookupKey keyFillX (mergeLabel labelDefaults [(keyFillX, valRed)]) = some valRed ∧
    lookupKey keyFillX (mergeLabelClaim labelDefaults [(keyFillX, valRed)]) = none := by
  decide

/-- C5 amended: a label sub-key is merged exactly when its name contains
fontSize or fill as a substring; a key the pattern does not match never
appears in and never alters the resolved label settings, and a matched key
resolves to the last value given for it, defaulting to the preset value. -/
theorem mergeLabel_lookup (defaults opts : List (String × String)) (k : String) :
    lookupKey k (mergeLabel defaults opts) =
      if labelKeyMatches k then
        match lookupLast k opts with
        | some v => some v
        | none => lookupKey k defaults
      else lookupKey k defaults := by
  induction opts generalizing defaults with
  | nil => by_cases h : labelKeyMatches k <;> simp [mergeLabel, lookupLast, h]
  | cons kv rest ih =>
    obtain ⟨k1, v1⟩ := kv
    have hstep : mergeLabel defaults ((k1, v1) :: rest) =
        mergeLabel (if labelKeyMatches k1 then objSet defaults k1 v1 else defaults)
          rest := rfl
    rw [hstep, ih]
    by_cases hk : labelKeyMatches k
    · simp only [hk, if_true]
      cases hrest : lookupLast k rest with
      | some r => simp [lookupLast, hrest]
      | none =>
        simp only [lookupLast, hrest]
        by_cases hkk : k1 = k
        · subst hkk
          simp [hk, lookupKey_objSet_self]
        · by_cases hm1 : labelKeyMatches k1 <;>
            simp [hm1, hkk, lookupKey_objSet_other _ _ _ _ hkk]
    · simp only [hk, if_false]
      by_cases hkk : k1 = k
      · subst hkk
        simp [hk]
      · by_cases hm1 : labelKeyMatches k1 <;>
          simp [hm1, lookupKey_objSet_other _ _ _ _ hkk]

/-! The color shading helper. -/

theorem natToHexCore_fuel (f1 : ℕ) :
    ∀ (f2 n : ℕ), n < f1 → n < f2 → natToHexCore f1 n = natToHexCore f2 n := by
  induction f1 with
  | zero => intro f2 n h1 h2; omega
  | succ f ih =>
    intro f2 n h1 h2
    cases f2 with
    | zero => omega
    | succ g =>
      simp only [natToHexCore]
      by_cases h16 : n < 16
      · simp [h16]
      · simp only [h16, if_false]
        rw [ih g (n / 16) (by omega) (by omega)]

theorem natToHex_step (a b : ℕ) (ha : 0 < a) (hb : b < 16) :
    natToHex (a * 16 + b) = natToHex a ++ [hexDigitChar b] := by
  unfold natToHex
  simp only [natToHexCore]
  have h16 : ¬ (a * 16 + b < 16) := by omega
  simp only [h16, if_false]
  have hdiv : (a * 16 + b) / 16 = a := by omega
  have hmod : (a * 16 + b) % 16 = b := by omega
  rw [hdiv, hmod, natToHexCore_fuel (a * 16 + b) (a + 1) a (by omega) (by omega)]
  rfl

theorem jsRound_intCast_add (C : ℤ) (x : ℚ) :
    jsRound ((C : ℚ) + x) = C + jsRound x := by
  unfold jsRound
  rw [add_assoc, add_comm (C : ℚ), Int.floor_add_int]
  ring

theorem shadeChannel_as_code (C : ℤ) (s : ℚ) :
    jsRound ((((if s < 0 then (0 : ℤ) else 255) - C : ℤ) : ℚ) *
      (if s < 0 then s * (-1) else s)) + C = shadeChannel C s := by
  unfold shadeChannel
  rw [jsRound_intCast_add]
  ring

theorem shadeChannel_bounds (C : ℤ) (s : ℚ) (hC0 : 0 ≤ C) (hC1 : C ≤ 255)
    (hs1 : -1 ≤ s) (hs2 : s ≤ 1) :
    0 ≤ shadeChannel C s ∧ shadeChannel C s ≤ 255 := by
  have hC0' : (0 : ℚ) ≤ (C : ℚ) := by exact_mod_cast hC0
  have hC1' : (C : ℚ) ≤ 255 := by exact_mod_cast hC1
  unfold shadeChannel jsRound
  by_cases hneg : s < 0
  · simp only [hneg, if_true]
    constructor
    · refine Int.floor_nonneg.mpr ?_
      push_cast
      nlinarith
    · apply Int.lt_add_one_iff.mp
      rw [Int.floor_lt]
      push_cast
      nlinarith
  · have hs0 : (0 : ℚ) ≤ s := not_lt.mp hneg
    simp only [hneg, if_false]
    constructor
    · refine Int.floor_nonneg.mpr ?_
      push_cast
      nlinarith
    · apply Int.lt_add_one_iff.mp
      rw [Int.floor_lt]
      push_cast
      nlinarith

theorem parseHex_six (c1 c2 c3 c4 c5 c6 : Char) :
    parseHex [c1, c2, c3, c4, c5, c6] =
      ((((hexDigitVal c1 * 16 + hexDigitVal c2) * 16 + hexDigitVal c3) * 16 +
        hexDigitVal c4) * 16 + hexDigitVal c5) * 16 + hexDigitVal c6 := by
  simp only [parseHex, List.foldl_cons, List.foldl_nil]
  omega

theorem hexDigitVal_lt (c : Char) (h : isHexDigitChar c = true) :
    hexDigitVal c < 16 := by
  unfold isHexDigitChar at h
  rw [decide_eq_true_eq] at h
  unfold hexDigitVal
  have h9 : ('9' : Char).toNat = 57 := by decide
  rcases h with ⟨h1, h2⟩ | ⟨h1, h2⟩ | ⟨h1, h2⟩
  · rw [if_pos ⟨h1, h2⟩]
    have hx : c.toNat ≤ 57 := h2
    omega
  · have hx1 : 97 ≤ c.toNat := h1
    have hx2 : c.toNat ≤ 102 := h2
    rw [if_neg (fun hcon => by have hy : c.toNat ≤ 57 := hcon.2; omega),
      if_pos ⟨h1, h2⟩]
    omega
  · have hx1 : 65 ≤ c.toNat := h1
    have hx2 : c.toNat ≤ 70 := h2
    rw [if_neg (fun hcon => by have hy : c.toNat ≤ 57 := hcon.2; omega),
      if_neg (fun hcon => by have hy : 97 ≤ c.toNat := hcon.1; omega),
      if_pos ⟨h1, h2⟩]
    omega

theorem natToHex_triple (x y z : ℤ) (hx0 : 0 ≤ x) (hx1 : x ≤ 255)
    (hy0 : 0 ≤ y) (hy1 : y ≤ 255) (hz0 : 0 ≤ z) (hz1 : z ≤ 255) :
    (natToHex (16777216 + x * 65536 + y * 256 + z).toNat).drop 1 =
      hexPairChars x ++ hexPairChars y ++ hexPairChars z := by
  have h : (16777216 + x * 65536 + y * 256 + z).toNat =
      ((((((1 * 16 + x.toNat / 16) * 16 + x.toNat % 16) * 16 + y.toNat / 16) * 16 +
        y.toNat % 16) * 16 + z.toNat / 16) * 16 + z.toNat % 16) := by
    omega
  rw [h]
  rw [natToHex_step (((((1 * 16 + x.toNat / 16) * 16 + x.toNat % 16) * 16 +
      y.toNat / 16) * 16 + y.toNat % 16) * 16 + z.toNat / 16) (z.toNat % 16)
    (by omega) (by omega)]
  rw [natToHex_step ((((1 * 16 + x.toNat / 16) * 16 + x.toNat % 16) * 16 +
      y.toNat / 16) * 16 + y.toNat % 16) (z.toNat / 16) (by omega) (by omega)]
  rw [natToHex_step (((1 * 16 + x.toNat / 16) * 16 + x.toNat % 16) * 16 +
      y.toNat / 16) (y.toNat % 16) (by omega) (by omega)]
  rw [natToHex_step ((1 * 16 + x.toNat / 16) * 16 + x.toNat % 16) (y.toNat / 16)
    (by omega) (by omega)]
  rw [natToHex_step (1 * 16 + x.toNat / 16) (x.toNat % 16) (by omega) (by omega)]
  rw [natToHex_step 1 (x.toNat / 16) (by omega) (by omega)]
  rw [show natToHex 1 = [hexDigitChar 1] from rfl]
  simp [hexPairChars]

theorem shadeColor_spec_6_digits (c1 c2 c3 c4 c5 c6 : Char) (s : ℚ)
    (h1 : isHexDigitChar c1 = true) (h2 : isHexDigitChar c2 = true)
    (h3 : isHexDigitChar c3 = true) (h4 : isHexDigitChar c4 = true)
    (h5 : isHexDigitChar c5 = true) (h6 : isHexDigitChar c6 = true)
    (hs1 : -1 ≤ s) (hs2 : s ≤ 1) :
    shadeColor (String.mk (hashChar :: [c1, c2, c3, c4, c5, c6])) s =
      shadeColorSpec (String.mk (hashChar :: [c1, c2, c3, c4, c5, c6])) s := by
  have hv1 := hexDigitVal_lt c1 h1
  have hv2 := hexDigitVal_lt c2 h2
  have hv3 := hexDigitVal_lt c3 h3
  have hv4 := hexDigitVal_lt c4 h4
  have hv5 := hexDigitVal_lt c5 h5
  have hv6 := hexDigitVal_lt c6 h6
  have hCR0 : (0 : ℤ) ≤ ((hexDigitVal c1 * 16 + hexDigitVal c2 : ℕ) : ℤ) :=
    Int.ofNat_nonneg _
  have hCR1 : ((hexDigitVal c1 * 16 + hexDigitVal c2 : ℕ) : ℤ) ≤ 255 := by
    exact_mod_cast Nat.le_of_lt_succ (by omega)
  have hCG0 : (0 : ℤ) ≤ ((hexDigitVal c3 * 16 + hexDigitVal c4 : ℕ) : ℤ) :=
    Int.ofNat_nonneg _
  have hCG1 : ((hexDigitVal c3 * 16 + hexDigitVal c4 : ℕ) : ℤ) ≤ 255 := by
    exact_mod_cast Nat.le_of_lt_succ (by omega)
  have hCB0 : (0 : ℤ) ≤ ((hexDigitVal c5 * 16 + hexDigitVal c6 : ℕ) : ℤ) :=
    Int.ofNat_nonneg _
  have hCB1 : ((hexDigitVal c5 * 16 + hexDigitVal c6 : ℕ) : ℤ) ≤ 255 := by
    exact_mod_cast Nat.le_of_lt_succ (by omega)
  obtain ⟨hR0, hR1⟩ := shadeChannel_bounds _ s hCR0 hCR1 hs1 hs2
  obtain ⟨hG0, hG1⟩ := shadeChannel_bounds _ s hCG0 hCG1 hs1 hs2
  obtain ⟨hB0, hB1⟩ := shadeChannel_bounds _ s hCB0 hCB1 hs1 hs2
  have hdrop : (String.mk (hashChar :: [c1, c2, c3, c4, c5, c6])).toList.drop 1 =
      [c1, c2, c3, c4, c5, c6] := rfl
  have htl : (String.mk (hashChar :: [c1, c2, c3, c4, c5, c6])).toList =
      hashChar :: [c1, c2, c3, c4, c5, c6] := rfl
  simp only [shadeColor, hdrop, parseHex_six]
  simp only [shadeColorSpec, htl]
  clear hCR0 hCR1 hCG0 hCG1 hCB0 hCB1 hR0 hR1 hG0 hG1 hB0 hB1
  revert hv1 hv2 hv3 hv4 hv5 hv6
  generalize hexDigitVal c1 = v1
  generalize hexDigitVal c2 = v2
  generalize hexDigitVal c3 = v3
  generalize hexDigitVal c4 = v4
  generalize hexDigitVal c5 = v5
  generalize hexDigitVal c6 = v6
  intro hv1 hv2 hv3 hv4 hv5 hv6
  rw [show ((((v1 * 16 + v2) * 16 + v3) * 16 + v4) * 16 + v5) * 16 + v6 =
    (v1 * 16 + v2) * 65536 + ((v3 * 16 + v4) * 256 + (v5 * 16 + v6)) from by ring]
  rw [show ((v1 * 16 + v2) * 65536 + ((v3 * 16 + v4) * 256 + (v5 * 16 + v6))) / 65536 =
    v1 * 16 + v2 from by omega]
  rw [show ((v1 * 16 + v2) * 65536 + ((v3 * 16 + v4) * 256 + (v5 * 16 + v6))) / 256 % 256 =
    v3 * 16 + v4 from by omega]
  rw [show ((v1 * 16 + v2) * 65536 + ((v3 * 16 + v4) * 256 + (v5 * 16 + v6))) % 256 =
    v5 * 16 + v6 from by omega]
  rw [shadeChannel_as_code, shadeChannel_as_code, shadeChannel_as_code]
  have hCR0 : (0 : ℤ) ≤ ((v1 * 16 + v2 : ℕ) : ℤ) := Int.ofNat_nonneg _
  have hCR1 : ((v1 * 16 + v2 : ℕ) : ℤ) ≤ 255 := by
    exact_mod_cast (show v1 * 16 + v2 ≤ 255 from by omega)
  have hCG0 : (0 : ℤ) ≤ ((v3 * 16 + v4 : ℕ) : ℤ) := Int.ofNat_nonneg _
  have hCG1 : ((v3 * 16 + v4 : ℕ) : ℤ) ≤ 255 := by
    exact_mod_cast (show v3 * 16 + v4 ≤ 255 from by omega)
  have hCB0 : (0 : ℤ) ≤ ((v5 * 16 + v6 : ℕ) : ℤ) := Int.ofNat_nonneg _
  have hCB1 : ((v5 * 16 + v6 : ℕ) : ℤ) ≤ 255 := by
    exact_mod_cast (show v5 * 16 + v6 ≤ 255 from by omega)
  obtain ⟨hR0, hR1⟩ := shadeChannel_bounds _ s hCR0 hCR1 hs1 hs2
  obtain ⟨hG0, hG1⟩ := shadeChannel_bounds _ s hCG0 hCG1 hs1 hs2
  obtain ⟨hB0, hB1⟩ := shadeChannel_bounds _ s hCB0 hCB1 hs1 hs2
  rw [natToHex_triple _ _ _ hR0 hR1 hG0 hG1 hB0 hB1]

/-- C9 counterexample: the 3 digit color fff is accepted by the resolver
pattern and the shade 0 lies in the unit interval, yet the helper does not
return the channel interpolation of the input color: it parses the three
digits as one 12 bit integer and splits that into bytes, so the red channel
becomes 0 and white shaded by 0 comes out as 000fff instead of ffffff. -/
theorem shadeColor_hex3_diverges :
    hexColorValid colorFFF = true ∧
    shadeColor colorFFF 0 ≠ shadeColorSpec colorFFF 0 := by
  refine ⟨by decide, ?_⟩
  have hcode : shadeColor colorFFF 0 =
      String.mk (hashChar :: (natToHex ((16781311 : ℤ)).toNat).drop 1) := by
    simp only [shadeColor, show colorFFF.toList.drop 1 = ['f', 'f', 'f'] from rfl,
      show parseHex ['f', 'f', 'f'] = 4095 from by decide]
    norm_num [jsRound]
  have hspec : shadeColorSpec colorFFF 0 = "#ffffff" := by
    simp only [shadeColorSpec, show colorFFF.toList = ['#', 'f', 'f', 'f'] from rfl]
    norm_num [shadeChannel, jsRound, show hexDigitVal 'f' = 15 from by decide]
    decide
  rw [hcode, hspec]
  decide



/-- C9 amended: for every 6 hex digit color accepted by the resolver
pattern and every shade fraction in the closed interval from -1 to 1, the
shading helper returns exactly the color obtained by linearly interpolating
each RGB channel toward 0 for a negative shade or toward 255 otherwise, by
the magnitude of the shade, rounding each channel independently; 3 digit
colors are instead parsed as a single 12 bit integer split into bytes. -/
theorem shadeColor_matches_channel_lerp (c1 c2 c3 c4 c5 c6 : Char) (s : ℚ)
    (hp : hexColorValid (String.mk (hashChar :: [c1, c2, c3, c4, c5, c6])) = true)
    (hs1 : -1 ≤ s) (hs2 : s ≤ 1) :
    shadeColor (String.mk (hashChar :: [c1, c2, c3, c4, c5, c6])) s =
      shadeColorSpec (String.mk (hashChar :: [c1, c2, c3, c4, c5, c6])) s := by
  have hl : (String.mk (hashChar :: [c1, c2, c3, c4, c5, c6])).toList =
      hashChar :: [c1, c2, c3, c4, c5, c6] := rfl
  simp only [hexColorValid, hl, List.all_cons, List.all_nil, Bool.and_eq_true] at hp
  exact shadeColor_spec_6_digits c1 c2 c3 c4 c5 c6 s hp.2.1 hp.2.2.1 hp.2.2.2.1
    hp.2.2.2.2.1 hp.2.2.2.2.2.1 hp.2.2.2.2.2.2.1 hs1 hs2

theorem shadeColor_matches_channel_lerp_witness :
    (hexColorValid
        (String.mk (hashChar :: ['f', 'f', 'f', 'f', 'f', 'f'])) = true ∧
      -1 ≤ (1 / 2 : ℚ) ∧ (1 / 2 : ℚ) ≤ 1) ∧
    shadeColor (String.mk (hashChar :: ['f', 'f', 'f', 'f', 'f', 'f'])) (1 / 2) =
      shadeColorSpec (String.mk (hashChar :: ['f', 'f', 'f', 'f', 'f', 'f'])) (1 / 2) :=
  ⟨⟨by decide, by norm_num, by norm_num⟩,
    shadeColor_matches_channel_lerp (Char.ofNat 102) (Char.ofNat 102) (Char.ofNat 102) (Char.ofNat 102) (Char.ofNat 102) (Char.ofNat 102) (1 / 2) (by decide) (by norm_num) (by norm_num)⟩


end D3Funnel
